import Mathlib

/-!
Shallow embedding of the matchmaking / room / conversation helpers of the
`blabhere` and `mullmine` Django apps (files `blabhere/helpers.py`,
`mullmine/helpers.py`, `blabhere/consumers.py`, and the data model of
`models.py`).

Modelling conventions:
* UUID primary keys become `Nat` identifiers.
* `DateTimeField` timestamps become `Nat` epoch values; `auto_now_add`
  fields are supplied explicitly by callers as a `now` argument.
* Django querysets become Lean lists; `QuerySet.filter(...).first()` is
  `List.find?`, `Model.objects.get(...)` is `List.find?` wrapped in
  `Except` when the Python code lets `DoesNotExist` propagate, and plain
  `Option` when the Python code catches the exception.
* The symmetrical self-referential many-to-many field
  `User.blocked_users = ManyToManyField("self")` is a list of ordered
  pairs `(blocker, blocked)`; Django inserts both directions on `add`,
  which `addBlocked` reproduces.
* SQL `ORDER BY` clauses become an insertion sort `sortBy` over a boolean
  comparator derived from the order keys; descending keys are embedded by
  negating into `Int`, and `NULLS LAST` by mapping `none` to a key that
  compares after every non-null key.
* Float division in the chattiness score is modelled over `ℚ`.
-/

/-! ### Generic insertion sort over a boolean comparator -/

def insertSorted {α : Type} (le : α → α → Bool) (x : α) : List α → List α
  | [] => [x]
  | y :: ys => if le x y then x :: y :: ys else y :: insertSorted le x ys

def sortBy {α : Type} (le : α → α → Bool) : List α → List α
  | [] => []
  | x :: xs => insertSorted le x (sortBy le xs)

/-- Comparator obtained from an ascending sort key into a linear order. -/
def keyLE {α : Type} {K : Type} [LinearOrder K] (f : α → K) (a b : α) : Bool :=
  decide (f a ≤ f b)

/-- Comparator for a descending sort on a key into a linear order. -/
def keyGE {α : Type} {K : Type} [LinearOrder K] (f : α → K) (a b : α) : Bool :=
  decide (f b ≤ f a)

/-! ### Data model (`models.py`) -/

/-- Models `User` rows: uuid pk, unique username (the firebase uid), unique
display name, `is_verified`, `is_online`.  The m2m `blocked_users` side
table lives on `DB.blocked`. -/
structure DUser where
  uid : Nat
  username : String
  display_name : String
  is_verified : Bool
  is_online : Bool
deriving Repr, DecidableEq

/-- Models `Room` rows.  `members` is the m2m side table for this room, in row
order.  `question` is the mullmine variant's question text; `topic` is the
blabhere variant's `ChatTopic` foreign key, represented by the topic's
unique name. -/
structure DRoom where
  rid : Nat
  question : String
  topic : String
  members : List Nat
  created_at : Nat
deriving Repr, DecidableEq

/-- Models `Message` rows (append-only). -/
structure DMessage where
  mid : Nat
  creator : Nat
  room : Nat
  content : String
  created_at : Nat
deriving Repr, DecidableEq

/-- Models `Conversation` rows: one inbox entry per (participant, room). -/
structure DConversation where
  cid : Nat
  participant : Nat
  room : Nat
  latest_message : Option Nat
  read : Bool
  created_at : Nat
deriving Repr, DecidableEq

/-- The datastore.  `blocked` holds the rows of the symmetrical
`User.blocked_users` m2m table as (blocker id, blocked id) pairs;
`topics` holds the blabhere `ChatTopic` names. -/
structure DB where
  users : List DUser
  rooms : List DRoom
  messages : List DMessage
  convs : List DConversation
  blocked : List (Nat × Nat)
  topics : List String
deriving Repr, DecidableEq

def NUM_MESSAGES_PER_PAGE : Nat := 10

def FULL_ROOM_NUM_MEMBERS : Nat := 5

/-! ### Queryset primitives -/

def DB.roomById (db : DB) (room_id : Nat) : Option DRoom :=
  db.rooms.find? (fun r => r.rid == room_id)

def DB.userById (db : DB) (uid : Nat) : Option DUser :=
  db.users.find? (fun u => u.uid == uid)

def DB.userByName (db : DB) (username : String) : Option DUser :=
  db.users.find? (fun u => u.username == username)

/-- Models `room.members.all()`: the member `User` rows of a room, in member-row
order (foreign keys guarantee each id resolves; ids without a row are
dropped). -/
def memberRecords (db : DB) (room : DRoom) : List DUser :=
  room.members.filterMap db.userById

/-- Models `user.blocked_users.all().values_list("id", flat=True)`. -/
def blockedIds (db : DB) (user : DUser) : List Nat :=
  db.blocked.filterMap (fun p => if p.1 == user.uid then some p.2 else none)

/-- Models `user.room_set.all().values_list("id", flat=True)`. -/
def userRoomIds (db : DB) (user : DUser) : List Nat :=
  (db.rooms.filter (fun r => r.members.contains user.uid)).map (fun r => r.rid)

/-- Messages of a room (`room.message_set.all()`). -/
def roomMessages (db : DB) (room_id : Nat) : List DMessage :=
  db.messages.filter (fun m => m.room == room_id)

/-- Models `room.message_set.order_by("-created_at").first()`: a message of the
room with maximal timestamp (the row order on equal timestamps is not
specified by the database; we keep the earliest row). -/
def latestMessage (db : DB) (room_id : Nat) : Option DMessage :=
  (roomMessages db room_id).foldl
    (fun acc m =>
      match acc with
      | none => some m
      | some b => if b.created_at < m.created_at then some m else some b)
    none

/-- The correlated subquery
`Message.objects.filter(room__id=OuterRef("id")).order_by("-created_at").values("created_at")[:1]`:
the latest message timestamp of a room, if any. -/
def latestTs (db : DB) (room_id : Nat) : Option Nat :=
  ((roomMessages db room_id).map (fun m => m.created_at)).max?

/-- m2m row insertion: skips rows that already exist. -/
def insertPair (l : List (Nat × Nat)) (p : Nat × Nat) : List (Nat × Nat) :=
  if p ∈ l then l else l ++ [p]

/-- Django symmetrical m2m `add`: inserts both directions, skipping rows
that already exist. -/
def addBlocked (db : DB) (a b : Nat) : DB :=
  { db with blocked := insertPair (insertPair db.blocked (a, b)) (b, a) }

/-! ### Shared helpers (`helpers.py`, identical in both variants) -/

/-- Models `block_room_user(room_id, user, username)`. -/
def block_room_user (db : DB) (room_id : Nat) (user : DUser) (username : String) : DB :=
  match db.roomById room_id with
  | none => db
  | some room =>
    match (memberRecords db room).find? (fun u => u.username == username) with
    | none => db
    | some blocked_user =>
      if (memberRecords db room).any (fun u => u.username == user.username) then
        addBlocked db user.uid blocked_user.uid
      else db

/-- Models `check_room_full(room_id, user)`; the Python function falls off the end
(returns `None`) when the room does not exist. -/
def check_room_full (db : DB) (room_id : Nat) (user : DUser) : Option Bool :=
  match db.roomById room_id with
  | none => none
  | some room =>
    let is_member := (memberRecords db room).any (fun u => u.username == user.username)
    some (decide (room.members.length ≥ FULL_ROOM_NUM_MEMBERS) && !is_member)

/-- Models `get_room(room_id)`: catches `DoesNotExist`, logs, and returns `None`. -/
def get_room (db : DB) (room_id : Nat) : Option DRoom :=
  db.roomById room_id

/-- Models `initialize_room(room_id, user)`: verified users only; catches
`DoesNotExist` and returns `None`. -/
def initialize_room (db : DB) (room_id : Option Nat) (user : DUser) : Option DRoom :=
  if user.is_verified then
    match room_id with
    | some rid => db.roomById rid
    | none => none
  else none

/-- Row shape returned by `get_all_members`. -/
structure MemberInfo where
  name : String
  is_online : Bool
  username : String
deriving Repr, DecidableEq

/-- Models `get_all_members(room_id)`: `[]` when the room does not exist. -/
def get_all_members (db : DB) (room_id : Nat) : List MemberInfo :=
  match db.roomById room_id with
  | none => []
  | some room =>
    (memberRecords db room).map (fun u => ⟨u.display_name, u.is_online, u.username⟩)

/-- Models `add_user_to_room(user, room)`; `now` and `freshCid` stand in for the
`auto_now_add` timestamp and the fresh uuid of the created conversation. -/
def add_user_to_room (db : DB) (user : DUser) (room : DRoom) (now freshCid : Nat) :
    List MemberInfo × Bool × DB :=
  let latest_message := latestMessage db room.rid
  if user.uid ∈ room.members then
    (get_all_members db room.rid, false, db)
  else
    let db' : DB := { db with
      rooms := db.rooms.map
        (fun r => if r.rid == room.rid then { r with members := r.members ++ [user.uid] } else r),
      convs := db.convs ++
        [⟨freshCid, user.uid, room.rid, latest_message.map (fun m => m.mid), true, now⟩] }
    (get_all_members db' room.rid, true, db')

/-- Models `read_unread_conversation(room_id, user)`: both lookups use
`Model.objects.get`, whose `DoesNotExist` propagates. -/
def read_unread_conversation (db : DB) (room_id : Nat) (user : DUser) : Except String DB :=
  match db.roomById room_id with
  | none => Except.error "Room matching query does not exist."
  | some _room =>
    match db.convs.find? (fun c => c.participant == user.uid && c.room == room_id) with
    | none => Except.error "Conversation matching query does not exist."
    | some conversation =>
      if !conversation.read then
        Except.ok { db with
          convs := db.convs.map
            (fun c => if c.cid == conversation.cid then { c with read := true } else c) }
      else Except.ok db

/-! ### Room departure (`leave_room`, per variant) -/

namespace Blabhere

/-- blabhere `leave_room(user, room_id)`: `Room.objects.get` lets
`DoesNotExist` propagate; membership is by object (pk) equality; the
abandoned room is retained. -/
def leave_room (db : DB) (user : DUser) (room_id : Nat) : Except String DB :=
  match db.roomById room_id with
  | none => Except.error "Room matching query does not exist."
  | some room_to_leave =>
    if user.uid ∈ room_to_leave.members then
      Except.ok { db with
        convs := db.convs.filter
          (fun c => !(c.participant == user.uid && c.room == room_id)),
        rooms := db.rooms.map
          (fun r =>
            if r.rid == room_id then
              { r with members := r.members.filter (fun m => m != user.uid) }
            else r) }
    else Except.ok db

end Blabhere

/-- Models `room.delete()`: removes the room, cascades to its messages and its
conversation rows, and the deleted messages `SET_NULL` any remaining
`latest_message` references. -/
def deleteRoomCascade (db : DB) (room_id : Nat) : DB :=
  let deadMsgIds := (db.messages.filter (fun m => m.room == room_id)).map (fun m => m.mid)
  { db with
    rooms := db.rooms.filter (fun r => r.rid != room_id),
    messages := db.messages.filter (fun m => m.room != room_id),
    convs := (db.convs.filter (fun c => c.room != room_id)).map
      (fun c =>
        match c.latest_message with
        | some mid => if mid ∈ deadMsgIds then { c with latest_message := none } else c
        | none => c) }

namespace Mullmine

/-- mullmine `leave_room(user, room_id)`: as blabhere, but deletes the room
when the member count reaches zero. -/
def leave_room (db : DB) (user : DUser) (room_id : Nat) : Except String DB :=
  match db.roomById room_id with
  | none => Except.error "Room matching query does not exist."
  | some room_to_leave =>
    if user.uid ∈ room_to_leave.members then
      let newMembers := room_to_leave.members.filter (fun m => m != user.uid)
      let db' : DB := { db with
        convs := db.convs.filter
          (fun c => !(c.participant == user.uid && c.room == room_id)),
        rooms := db.rooms.map
          (fun r => if r.rid == room_id then { r with members := newMembers } else r) }
      if newMembers.length == 0 then Except.ok (deleteRoomCascade db' room_id)
      else Except.ok db'
    else Except.ok db

end Mullmine

/-! ### Conversation fan-out on a new message -/

/-- Models `Conversation.objects.filter(id=conversation.id).update(latest_message=message,
read=user == message.creator)`: the by-primary-key row update applied to
each stored row. -/
def convUpdate (message : DMessage) (user : DUser) (conversation : DConversation)
    (c : DConversation) : DConversation :=
  if c.cid == conversation.cid then
    { c with latest_message := some message.mid, read := user.uid == message.creator }
  else c

/-- The loop body of `update_conversations_for_new_message`: members who
have blocked the creator are skipped; for everyone else the conversation
row for (member, room) is fetched with `Conversation.objects.get` (its
`DoesNotExist` propagates) and updated by primary key. -/
def updateConvLoop (room : DRoom) (message : DMessage) :
    List DUser → DB → Except String DB
  | [], acc => Except.ok acc
  | user :: rest, acc =>
    if (user.uid, message.creator) ∈ acc.blocked then
      updateConvLoop room message rest acc
    else
      match acc.convs.find? (fun c => c.participant == user.uid && c.room == room.rid) with
      | none => Except.error "Conversation matching query does not exist."
      | some conversation =>
        updateConvLoop room message rest
          { acc with convs := acc.convs.map (convUpdate message user conversation) }

/-- Models `update_conversations_for_new_message(room, message)`. -/
def update_conversations_for_new_message (db : DB) (room : DRoom) (message : DMessage) :
    Except String DB :=
  updateConvLoop room message (memberRecords db room) db

/-- Models `create_new_message(content, room, creator)`: appends the immutable
message row, then fans out to the conversation rows.  `now` and `mid` stand
in for the `auto_now_add` timestamp and the fresh uuid. -/
def create_new_message (db : DB) (content : String) (room : DRoom) (creator : DUser)
    (now mid : Nat) : Except String DB :=
  let new_message : DMessage := ⟨mid, creator.uid, room.rid, content, now⟩
  let db1 : DB := { db with messages := db.messages ++ [new_message] }
  update_conversations_for_new_message db1 room new_message

/-- Models `RoomConsumer.send_message` (consumers.py): fetches the room via
`get_room` and the creator via `get_user` (whose `DoesNotExist`
propagates), then records the message only when the stripped content is
nonempty and the creator is verified. -/
def send_message (db : DB) (room_id : Nat) (username : String) (content : String)
    (now mid : Nat) : Except String DB :=
  let room := get_room db room_id
  match db.userByName username with
  | none => Except.error "User matching query does not exist."
  | some creator =>
    if content.data.any (fun c => !c.isWhitespace) && creator.is_verified then
      match room with
      | some r => create_new_message db content r creator now mid
      | none => Except.error "NoneType room"
    else Except.ok db

/-! ### Conversation listing (`get_user_conversations`) -/

/-- Row shape produced by `user.conversation_set.values(...)`. -/
structure ConvRow where
  room_id : Nat
  room_question : String
  read : Bool
  latest_creator_display_name : Option String
  latest_content : Option String
  latest_created_at : Option Nat
  created_at : Nat
deriving Repr, DecidableEq

/-- The `values(...)` join for one conversation row. -/
def convRowOf (db : DB) (c : DConversation) : ConvRow :=
  let q := match db.roomById c.room with
    | some r => r.question
    | none => ""
  match c.latest_message.bind (fun mid => db.messages.find? (fun m => m.mid == mid)) with
  | some m =>
    let dn := match db.userById m.creator with
      | some u => some u.display_name
      | none => none
    ⟨c.room, q, c.read, dn, some m.content, some m.created_at, c.created_at⟩
  | none => ⟨c.room, q, c.read, none, none, none, c.created_at⟩

/-- Key embedding a descending sort on an optional timestamp with
`nulls_last`: a null timestamp compares after every concrete one. -/
def tsDescKey : Option Nat → Lex (Int × Int)
  | some t => toLex (0, -(t : Int))
  | none => toLex (1, 0)

/-- Sort key of `order_by("read", F("latest_message__created_at").desc(nulls_last=True), "-created_at")`:
unread (`read = false`) first, then latest-message timestamp descending
with nulls last, then conversation creation time descending. -/
def convSortKey (r : ConvRow) : Lex (Bool × Lex (Lex (Int × Int) × Int)) :=
  toLex (r.read, toLex (tsDescKey r.latest_created_at, -(r.created_at : Int)))

/-- The conversation-list ordering relation. -/
def convRowLE (a b : ConvRow) : Prop := convSortKey a ≤ convSortKey b

/-- Models `get_user_conversations(username)`: `User.objects.get` lets
`DoesNotExist` propagate; returns the user's conversation rows in the
order above. -/
def get_user_conversations (db : DB) (username : String) :
    Except String (List ConvRow) :=
  match db.userByName username with
  | none => Except.error "User matching query does not exist."
  | some user =>
    Except.ok (sortBy (keyLE convSortKey)
      ((db.convs.filter (fun c => c.participant == user.uid)).map (convRowOf db)))

/-! ### Scoring engine (`get_most_chatted_users`) -/

/-- Models `Count("message", distinct=True)` on a room. -/
def num_messages (db : DB) (room_id : Nat) : Nat :=
  (roomMessages db room_id).length

/-- Models `Count("message", filter=Q(message__creator=user), distinct=True)`. -/
def num_your_messages (db : DB) (user : DUser) (room_id : Nat) : Nat :=
  ((roomMessages db room_id).filter (fun m => m.creator == user.uid)).length

/-- Models `Count("message", filter=~Q(message__creator=user), distinct=True)`. -/
def num_not_your_messages (db : DB) (user : DUser) (room_id : Nat) : Nat :=
  ((roomMessages db room_id).filter (fun m => m.creator != user.uid)).length

/-- The annotated `chattiness_score`: a `Case` expression guarded by
`num_your_messages > 0 AND num_not_your_messages > 0`, whose `then` branch
is the float quotient `num_messages * num_your_messages /
num_not_your_messages` (modelled over `ℚ`) and whose default is `0`. -/
def chattiness_score (db : DB) (user : DUser) (r : DRoom) : ℚ :=
  if 0 < num_your_messages db user r.rid ∧ 0 < num_not_your_messages db user r.rid then
    ((num_messages db r.rid : ℚ) * (num_your_messages db user r.rid : ℚ)) /
      (num_not_your_messages db user r.rid : ℚ)
  else 0

/-- Models `ArrayAgg("members__id", filter=~Q(members__id=user.id), distinct=True)`. -/
def other_members_ids (user : DUser) (r : DRoom) : List Nat :=
  (r.members.filter (fun m => m != user.uid)).dedup

/-- Python `set` accumulation: append if absent. -/
def insertIfAbsent (l : List Nat) (x : Nat) : List Nat :=
  if x ∈ l then l else l ++ [x]

/-- The rooms of `user` of distinct member count at most
`FULL_ROOM_NUM_MEMBERS`, minus the excluded ids (the Python code only
applies `exclude` when the argument is truthy, i.e. nonempty), ordered
descending by chattiness score. -/
def your_chattiest_rooms (db : DB) (user : DUser) (exclude_room_ids : List Nat) :
    List DRoom :=
  let base := db.rooms.filter
    (fun r => r.members.contains user.uid &&
      r.members.dedup.length ≤ FULL_ROOM_NUM_MEMBERS)
  let base2 :=
    if exclude_room_ids.isEmpty then base
    else base.filter (fun r => !(exclude_room_ids.contains r.rid))
  sortBy (keyGE (chattiness_score db user)) base2

/-- Models `get_most_chatted_users(user, exclude_room_ids=None)` → the set of ids
of the other members of the user's top-5 chattiest rooms (the returned
`User.objects.filter(id__in=members_ids)` queryset, as its id set). -/
def get_most_chatted_users (db : DB) (user : DUser) (exclude_room_ids : List Nat) :
    List Nat :=
  ((your_chattiest_rooms db user exclude_room_ids).take 5).foldl
    (fun acc r => (other_members_ids user r).foldl insertIfAbsent acc) []

/-- Models `get_most_chatted_users_of_most_chatted_users(user)`: iterates over the
top partners; note that the source discards the result of
`users.union(...)`, so the accumulator only ever changes while it is still
empty — the function returns the first top partner's own top-partner set. -/
def get_most_chatted_users_of_most_chatted_users (db : DB) (user : DUser) : List Nat :=
  let top_most_chatted_users := get_most_chatted_users db user []
  let exclude_room_ids := userRoomIds db user
  top_most_chatted_users.foldl
    (fun users top_uid =>
      if users.isEmpty then
        match db.userById top_uid with
        | some top_user => get_most_chatted_users db top_user exclude_room_ids
        | none => users
      else users)
    []

/-! ### Matchmaker candidate pools -/

/-- Lower-casing on character codes (ASCII case folding). -/
def lowerCode (c : Char) : Nat :=
  let n := c.toNat
  if 65 ≤ n ∧ n ≤ 90 then n + 32 else n

/-- Needle check at the head of a character-code list. -/
def leadsWith : List Nat → List Nat → Bool
  | [], _ => true
  | _ :: _, [] => false
  | a :: as, b :: bs => a == b && leadsWith as bs

/-- Substring occurrence on character-code lists. -/
def containsSub (needle : List Nat) : List Nat → Bool
  | [] => needle.isEmpty
  | c :: rest => leadsWith needle (c :: rest) || containsSub needle rest

/-- Models `question__icontains=question`: case-insensitive substring match. -/
def icontains (text sub : String) : Bool :=
  containsSub (sub.data.map lowerCode) (text.data.map lowerCode)

/-- Models `Count("members", filter=Q(members__id__in=blocked_users_ids), distinct=True)`. -/
def num_blocked_members (db : DB) (user : DUser) (r : DRoom) : Nat :=
  (r.members.dedup.filter (fun m => (blockedIds db user).contains m)).length

/-- Models `Count("members", filter=Q(members__is_online=True), distinct=True)`. -/
def num_members_online (db : DB) (r : DRoom) : Nat :=
  (r.members.dedup.filter (fun m =>
    match db.userById m with
    | some u => u.is_online
    | none => false)).length

namespace Blabhere

/-- blabhere `get_waiting_rooms(user, topic)`: `ChatTopic` is
`get_or_create`d by name, and the pool is every room below the full-room
member count, containing no member blocked by the requester, on that
topic.  Returns the pool together with the updated store (the topic row
creation). -/
def get_waiting_rooms (db : DB) (user : DUser) (topic : String) : List DRoom × DB :=
  let db' : DB :=
    if topic ∈ db.topics then db else { db with topics := db.topics ++ [topic] }
  let pool := db.rooms.filter
    (fun r =>
      decide (r.members.dedup.length < FULL_ROOM_NUM_MEMBERS) &&
      (num_blocked_members db user r == 0) &&
      r.topic == topic)
  (pool, db')

end Blabhere

namespace Mullmine

/-- Sort key of mullmine `get_all_chats`' `order_by("already_joined",
"-num_most_chatted_users", "-num_members_online",
F("latest_message_timestamp").desc(nulls_last=True), "-created_at")`.
`already_joined` is a `Case` producing `True` for the requester's own rooms
and SQL `NULL` otherwise, so ascending order with default `NULLS LAST`
puts the requester's rooms first. -/
def allChatsKey (db : DB) (user : DUser) (most_chatted : List Nat) (r : DRoom) :
    Lex (Int × Lex (Int × Lex (Int × Lex (Lex (Int × Int) × Int)))) :=
  let already_joined : Bool := (userRoomIds db user).contains r.rid
  let num_most_chatted : Nat :=
    (r.members.dedup.filter (fun m => most_chatted.contains m)).length
  toLex ((if already_joined then 0 else 1 : Int),
    toLex (-(num_most_chatted : Int),
      toLex (-(num_members_online db r : Int),
        toLex (tsDescKey (latestTs db r.rid), -(r.created_at : Int)))))

/-- mullmine `get_all_chats(user, question)`: every room below the
full-room member count, containing no member blocked by the requester,
whose question contains the query case-insensitively, in the annotated
order. -/
def get_all_chats (db : DB) (user : DUser) (question : String) : List DRoom :=
  let most_chatted := get_most_chatted_users_of_most_chatted_users db user
  let base := db.rooms.filter
    (fun r =>
      decide (r.members.dedup.length < FULL_ROOM_NUM_MEMBERS) &&
      (num_blocked_members db user r == 0) &&
      icontains r.question question)
  sortBy (keyLE (allChatsKey db user most_chatted)) base

end Mullmine

/-! ### Derived access used by the theorems -/

/-- The conversation row of a participant in a room, as
`Conversation.objects.get(participant=..., room=...)` finds it. -/
def rowFor (convs : List DConversation) (uid room_id : Nat) : Option DConversation :=
  convs.find? (fun c => c.participant == uid && c.room == room_id)

/-! ### Specification-side definitions (for the refinement claims)

These definitions follow the wording of the specification document, to be
compared with the definitions translated from the source above. -/

/-- The chattiness score as the specification words it: "(total messages
in room × user's messages in room) / (other members' messages in room),
defined as 0 when either the user's own message count or the others'
message count is zero".  ("Other members' messages" is read as the
messages of the room from creators other than the user, which is what the
`~Q(message__creator=user)` annotation counts.) -/
def chattinessScoreSpec (db : DB) (user : DUser) (r : DRoom) : ℚ :=
  if num_your_messages db user r.rid = 0 ∨ num_not_your_messages db user r.rid = 0 then 0
  else
    ((num_messages db r.rid : ℚ) * (num_your_messages db user r.rid : ℚ)) /
      (num_not_your_messages db user r.rid : ℚ)

/-- The specification's ranking: every room the user belongs to of member
count at most the capacity constant, minus the excluded rooms, ordered
descending by the spec's chattiness score. -/
def rankedRoomsSpec (db : DB) (user : DUser) (exclude_room_ids : List Nat) :
    List DRoom :=
  let base := db.rooms.filter
    (fun r => r.members.contains user.uid &&
      r.members.dedup.length ≤ FULL_ROOM_NUM_MEMBERS)
  let base2 :=
    if exclude_room_ids.isEmpty then base
    else base.filter (fun r => !(exclude_room_ids.contains r.rid))
  sortBy (keyGE (chattinessScoreSpec db user)) base2

/-- The specification's candidate partner set: the other members of the
top 5 ranked rooms, unioned. -/
def mostChattedPartnersSpec (db : DB) (user : DUser) (exclude_room_ids : List Nat) :
    List Nat :=
  ((rankedRoomsSpec db user exclude_room_ids).take 5).foldl
    (fun acc r => (other_members_ids user r).foldl insertIfAbsent acc) []

/-! ### Concrete sample data for the witnesses -/

def wAlice : DUser := ⟨1, "alice", "Alice", true, true⟩

def wBob : DUser := ⟨2, "bob", "Bob", true, false⟩

def wRoom : DRoom := ⟨7, "hello world", "sports", [1, 2], 3⟩

def wDb : DB :=
  ⟨[wAlice, wBob], [wRoom], [⟨1, 1, 7, "hi", 4⟩],
    [⟨1, 1, 7, some 1, true, 0⟩, ⟨2, 2, 7, some 1, false, 0⟩], [], ["sports"]⟩

/-- Models `wDb` after Alice records message 2 ("yo") in room 7. -/
def wDbMsg : DB :=
  ⟨[wAlice, wBob], [wRoom], [⟨1, 1, 7, "hi", 4⟩, ⟨2, 1, 7, "yo", 9⟩],
    [⟨1, 1, 7, some 2, true, 0⟩, ⟨2, 2, 7, some 2, false, 0⟩], [], ["sports"]⟩

def wRoomSolo : DRoom := ⟨8, "q", "t", [1], 3⟩

def wDbSolo : DB :=
  ⟨[wAlice], [wRoomSolo], [⟨5, 1, 8, "m", 4⟩], [⟨9, 1, 8, some 5, true, 0⟩], [], []⟩

/-- Models `wDbSolo` after its single member leaves, mullmine variant (the empty
room is deleted, cascading message 5 and every conversation row). -/
def wDbSoloM : DB := ⟨[wAlice], [], [], [], [], []⟩

/-- Models `wDbSolo` after its single member leaves, blabhere variant (the empty
room is retained). -/
def wDbSoloB : DB :=
  ⟨[wAlice], [⟨8, "q", "t", [], 3⟩], [⟨5, 1, 8, "m", 4⟩], [], [], []⟩

/-- Two-room store for the conversation-ordering witness: Alice's room 7
is read with a recent latest message, her room 8 unread with an old one. -/
def wDbConvs : DB :=
  ⟨[wAlice, wBob], [⟨7, "qa", "t", [1, 2], 3⟩, ⟨8, "qb", "t", [1, 2], 3⟩],
    [⟨1, 2, 7, "recent", 100⟩, ⟨2, 2, 8, "old", 4⟩],
    [⟨1, 1, 7, some 1, true, 0⟩, ⟨2, 1, 8, some 2, false, 1⟩], [], []⟩

/-- The rows `get_user_conversations wDbConvs "alice"` must produce: the
unread room-8 row (old message) ahead of the read room-7 row (recent
message). -/
def wOutConvs : List ConvRow :=
  [⟨8, "qb", false, some "Bob", some "old", some 4, 1⟩,
   ⟨7, "qa", true, some "Bob", some "recent", some 100, 0⟩]

/-! ## Theorems

### Generic facts about the sort and set-insertion helpers -/

theorem insertSorted_perm {α : Type} (le : α → α → Bool) (x : α) (l : List α) :
    (insertSorted le x l).Perm (x :: l) := by
  induction l with
  | nil => simp [insertSorted]
  | cons y ys ih =>
    simp only [insertSorted]
    by_cases h : le x y = true
    · simp [h]
    · rw [if_neg h]
      exact ((ih.cons y).trans (List.Perm.swap x y ys)).trans (List.Perm.refl _)

theorem sortBy_perm {α : Type} (le : α → α → Bool) (l : List α) :
    (sortBy le l).Perm l := by
  induction l with
  | nil => simp [sortBy]
  | cons x xs ih =>
    exact (insertSorted_perm le x (sortBy le xs)).trans (ih.cons x)

theorem mem_sortBy {α : Type} {le : α → α → Bool} {l : List α} {x : α} :
    x ∈ sortBy le l ↔ x ∈ l :=
  (sortBy_perm le l).mem_iff

theorem mem_insertSorted {α : Type} {le : α → α → Bool} {x y : α} {l : List α} :
    y ∈ insertSorted le x l ↔ y ∈ x :: l :=
  (insertSorted_perm le x l).mem_iff

theorem insertSorted_pairwise {α : Type} {le : α → α → Bool}
    (htot : ∀ a b, le a b = true ∨ le b a = true)
    (htrans : ∀ a b c, le a b = true → le b c = true → le a c = true)
    (x : α) {l : List α} (hl : l.Pairwise (fun a b => le a b = true)) :
    (insertSorted le x l).Pairwise (fun a b => le a b = true) := by
  induction l with
  | nil => simp [insertSorted]
  | cons y ys ih =>
    simp only [insertSorted]
    by_cases h : le x y = true
    · rw [if_pos h]
      refine List.Pairwise.cons ?_ hl
      intro z hz
      rcases List.mem_cons.mp hz with hz | hz
      · exact hz ▸ h
      · exact htrans x y z h ((List.pairwise_cons.mp hl).1 z hz)
    · have hyx : le y x = true := (htot x y).resolve_left h
      rw [if_neg h]
      refine List.Pairwise.cons ?_ (ih (List.pairwise_cons.mp hl).2)
      intro z hz
      rcases List.mem_cons.mp (mem_insertSorted.mp hz) with hz | hz
      · exact hz ▸ hyx
      · exact (List.pairwise_cons.mp hl).1 z hz

theorem sortBy_pairwise {α : Type} {le : α → α → Bool}
    (htot : ∀ a b, le a b = true ∨ le b a = true)
    (htrans : ∀ a b c, le a b = true → le b c = true → le a c = true)
    (l : List α) :
    (sortBy le l).Pairwise (fun a b => le a b = true) := by
  induction l with
  | nil => simp [sortBy]
  | cons x xs ih => exact insertSorted_pairwise htot htrans x ih

theorem keyLE_total {α : Type} {K : Type} [LinearOrder K] (f : α → K) :
    ∀ a b, keyLE f a b = true ∨ keyLE f b a = true := by
  intro a b
  rcases le_total (f a) (f b) with h | h
  · exact Or.inl (by simp [keyLE, h])
  · exact Or.inr (by simp [keyLE, h])

theorem keyLE_trans {α : Type} {K : Type} [LinearOrder K] (f : α → K) :
    ∀ a b c, keyLE f a b = true → keyLE f b c = true → keyLE f a c = true := by
  intro a b c hab hbc
  simp only [keyLE, decide_eq_true_eq] at *
  exact le_trans hab hbc

theorem keyGE_total {α : Type} {K : Type} [LinearOrder K] (f : α → K) :
    ∀ a b, keyGE f a b = true ∨ keyGE f b a = true := by
  intro a b
  rcases le_total (f b) (f a) with h | h
  · exact Or.inl (by simp [keyGE, h])
  · exact Or.inr (by simp [keyGE, h])

theorem keyGE_trans {α : Type} {K : Type} [LinearOrder K] (f : α → K) :
    ∀ a b c, keyGE f a b = true → keyGE f b c = true → keyGE f a c = true := by
  intro a b c hab hbc
  simp only [keyGE, decide_eq_true_eq] at *
  exact le_trans hbc hab

theorem mem_insertPair {l : List (Nat × Nat)} {p q : Nat × Nat} :
    q ∈ insertPair l p ↔ q ∈ l ∨ q = p := by
  unfold insertPair
  by_cases h : p ∈ l
  · rw [if_pos h]
    constructor
    · exact Or.inl
    · rintro (hq | rfl)
      · exact hq
      · exact h
  · rw [if_neg h]
    simp [List.mem_append]

theorem addBlocked_mem (db : DB) (a b : Nat) :
    (a, b) ∈ (addBlocked db a b).blocked ∧ (b, a) ∈ (addBlocked db a b).blocked := by
  unfold addBlocked
  constructor
  · exact mem_insertPair.mpr (Or.inl (mem_insertPair.mpr (Or.inr rfl)))
  · exact mem_insertPair.mpr (Or.inr rfl)

theorem mem_blockedIds {db : DB} {user : DUser} {m : Nat} :
    m ∈ blockedIds db user ↔ (user.uid, m) ∈ db.blocked := by
  unfold blockedIds
  rw [List.mem_filterMap]
  constructor
  · rintro ⟨⟨x, y⟩, hp, hf⟩
    by_cases hx : x == user.uid
    · rw [if_pos hx] at hf
      obtain rfl : y = m := by simpa using hf
      obtain rfl : x = user.uid := by simpa using hx
      exact hp
    · rw [if_neg hx] at hf
      cases hf
  · intro hmem
    exact ⟨(user.uid, m), hmem, by simp⟩

/-! ### C6: join is idempotent -/

/-- C6: `add_user_to_room` is idempotent: re-joining an existing member
changes no state (no new membership row, no new conversation row) yet
still returns the current member list, with the boolean `false`; a first
join returns `true` and appends the membership and a fresh conversation
row. -/
theorem C6_join_idempotent (db : DB) (user : DUser) (room : DRoom) (now freshCid : Nat) :
    (user.uid ∈ room.members →
      add_user_to_room db user room now freshCid = (get_all_members db room.rid, false, db)) ∧
    (user.uid ∉ room.members →
      (add_user_to_room db user room now freshCid).2.1 = true ∧
      (add_user_to_room db user room now freshCid).2.2.convs =
        db.convs ++ [⟨freshCid, user.uid, room.rid,
          (latestMessage db room.rid).map (fun m => m.mid), true, now⟩] ∧
      (add_user_to_room db user room now freshCid).2.2.rooms =
        db.rooms.map (fun r =>
          if r.rid == room.rid then { r with members := r.members ++ [user.uid] } else r)) := by
  constructor
  · intro hm
    simp [add_user_to_room, hm]
  · intro hm
    simp [add_user_to_room, hm]

theorem C6_witness :
    wAlice.uid ∈ wRoom.members ∧
    add_user_to_room wDb wAlice wRoom 9 5 = (get_all_members wDb wRoom.rid, false, wDb) :=
  ⟨by decide, (C6_join_idempotent wDb wAlice wRoom 9 5).1 (by decide)⟩

/-! ### C7: blank messages are a silent no-op -/

/-- C7: sending a message whose content is empty or whitespace-only is a
no-op and not an error: the datastore (messages, conversation rows, all of
it) is returned unchanged. -/
theorem C7_blank_message_noop (db : DB) (room_id : Nat) (username content : String)
    (now mid : Nat) (creator : DUser)
    (huser : db.userByName username = some creator)
    (hblank : content.data.all (fun c => c.isWhitespace) = true) :
    send_message db room_id username content now mid = Except.ok db := by
  unfold send_message
  rw [huser]
  have hany : content.data.any (fun c => !c.isWhitespace) = false := by
    rw [List.any_eq_false]
    intro c hc
    have hw := List.all_eq_true.mp hblank c hc
    simp [hw]
  rw [hany]
  simp

theorem C7_witness : send_message wDb 7 "alice" "   " 9 2 = Except.ok wDb :=
  C7_blank_message_noop wDb 7 "alice" "   " 9 2 wAlice rfl (by decide)

/-! ### C8: not-found semantics -/

/-- C8, counterexample to the claim as stated: `leave_room` (both
variants) and `read_unread_conversation` look the room up with
`Room.objects.get`, so on a nonexistent room id they raise
`DoesNotExist`, which propagates to the caller — not every operation
aborts silently. -/
theorem C8_counterexample :
    Mullmine.leave_room wDb wAlice 99 =
      Except.error "Room matching query does not exist." ∧
    Blabhere.leave_room wDb wAlice 99 =
      Except.error "Room matching query does not exist." ∧
    read_unread_conversation wDb 99 wAlice =
      Except.error "Room matching query does not exist." :=
  ⟨rfl, rfl, rfl⟩

/-- C8, amended: operations that look the room up with
`filter(...)` / a caught `get` (`get_room`, `initialize_room`,
`check_room_full`, `get_all_members`, `block_room_user`) report
not-found with no result, no state change and no exception; but
`leave_room` and `read_unread_conversation` use a bare
`Room.objects.get` and raise `DoesNotExist`, which propagates. -/
theorem C8_amended_not_found (db : DB) (room_id : Nat) (user : DUser) (username : String)
    (h : db.roomById room_id = none) :
    get_room db room_id = none ∧
    initialize_room db (some room_id) user = none ∧
    check_room_full db room_id user = none ∧
    get_all_members db room_id = [] ∧
    block_room_user db room_id user username = db ∧
    Mullmine.leave_room db user room_id =
      Except.error "Room matching query does not exist." ∧
    Blabhere.leave_room db user room_id =
      Except.error "Room matching query does not exist." ∧
    read_unread_conversation db room_id user =
      Except.error "Room matching query does not exist." := by
  refine ⟨h, ?_, ?_, ?_, ?_, ?_, ?_, ?_⟩
  · simp [initialize_room, h]
  · simp [check_room_full, h]
  · simp [get_all_members, h]
  · simp [block_room_user, h]
  · simp [Mullmine.leave_room, h]
  · simp [Blabhere.leave_room, h]
  · simp [read_unread_conversation, h]

theorem C8_amended_witness :
    get_room wDb 99 = none ∧
    initialize_room wDb (some 99) wAlice = none ∧
    check_room_full wDb 99 wAlice = none ∧
    get_all_members wDb 99 = [] ∧
    block_room_user wDb 99 wAlice "bob" = wDb ∧
    Mullmine.leave_room wDb wAlice 99 =
      Except.error "Room matching query does not exist." ∧
    Blabhere.leave_room wDb wAlice 99 =
      Except.error "Room matching query does not exist." ∧
    read_unread_conversation wDb 99 wAlice =
      Except.error "Room matching query does not exist." :=
  C8_amended_not_found wDb 99 wAlice "bob" rfl

/-! ### C9: members are never reported a full room -/

/-- C9: `check_room_full` never reports a room full to one of its own
members (even at or above the full-room constant), and reports `true`
exactly for non-members of a room at or above that constant. -/
theorem C9_member_never_full (db : DB) (room_id : Nat) (user : DUser) (room : DRoom)
    (h : db.roomById room_id = some room) :
    (db.userById user.uid = some user → user.uid ∈ room.members →
      check_room_full db room_id user = some false) ∧
    ∀ b, check_room_full db room_id user = some b →
      (b = true ↔ (FULL_ROOM_NUM_MEMBERS ≤ room.members.length ∧
        (memberRecords db room).any (fun u => u.username == user.username) = false)) := by
  have hval : check_room_full db room_id user =
      some (decide (room.members.length ≥ FULL_ROOM_NUM_MEMBERS) &&
        !((memberRecords db room).any (fun u => u.username == user.username))) := by
    unfold check_room_full
    rw [h]
  constructor
  · intro hid hm
    have hmem : user ∈ memberRecords db room := List.mem_filterMap.mpr ⟨user.uid, hm, hid⟩
    have hany : (memberRecords db room).any (fun u => u.username == user.username) = true :=
      List.any_eq_true.mpr ⟨user, hmem, by simp⟩
    rw [hval, hany]
    simp
  · intro b hb
    rw [hval] at hb
    injection hb with hb
    subst hb
    simp [ge_iff_le, Bool.and_eq_true, Bool.not_eq_true']

theorem C9_witness : check_room_full wDb 7 wAlice = some false :=
  (C9_member_never_full wDb 7 wAlice wRoom rfl).1 rfl (by decide)

/-! ### C10: blocking requires a shared room -/

/-- C10: `block_room_user` adds the target to the requester's blocked set
(both directions of the symmetrical m2m) exactly when the room exists and
the target and the requester are both current members of that room; in
every other case the datastore is returned unchanged. -/
theorem C10_block_requires_shared_room (db : DB) (room_id : Nat) (user : DUser)
    (username : String) :
    (db.roomById room_id = none → block_room_user db room_id user username = db) ∧
    (∀ room, db.roomById room_id = some room →
      ((memberRecords db room).find? (fun u => u.username == username) = none →
        block_room_user db room_id user username = db) ∧
      (∀ target,
        (memberRecords db room).find? (fun u => u.username == username) = some target →
        ((memberRecords db room).any (fun u => u.username == user.username) = false →
          block_room_user db room_id user username = db) ∧
        ((memberRecords db room).any (fun u => u.username == user.username) = true →
          block_room_user db room_id user username = addBlocked db user.uid target.uid ∧
          (user.uid, target.uid) ∈ (block_room_user db room_id user username).blocked ∧
          (target.uid, user.uid) ∈ (block_room_user db room_id user username).blocked))) := by
  refine ⟨?_, ?_⟩
  · intro h
    simp [block_room_user, h]
  · intro room h
    refine ⟨?_, ?_⟩
    · intro hfind
      simp [block_room_user, h, hfind]
    · intro target hfind
      refine ⟨?_, ?_⟩
      · intro hany
        simp [block_room_user, h, hfind, hany]
      · intro hany
        have heq : block_room_user db room_id user username =
            addBlocked db user.uid target.uid := by
          simp [block_room_user, h, hfind, hany]
        refine ⟨heq, ?_, ?_⟩
        · rw [heq]
          exact (addBlocked_mem db user.uid target.uid).1
        · rw [heq]
          exact (addBlocked_mem db user.uid target.uid).2

theorem C10_witness :
    block_room_user wDb 7 wAlice "bob" = addBlocked wDb wAlice.uid wBob.uid ∧
    (wAlice.uid, wBob.uid) ∈ (block_room_user wDb 7 wAlice "bob").blocked ∧
    (wBob.uid, wAlice.uid) ∈ (block_room_user wDb 7 wAlice "bob").blocked :=
  (((C10_block_requires_shared_room wDb 7 wAlice "bob").2 wRoom rfl).2 wBob
    (by decide)).2 rfl

/-! ### C1: candidate pools exclude full rooms and blocked users -/

theorem num_blocked_members_zero {db : DB} {user : DUser} {r : DRoom}
    (h : num_blocked_members db user r = 0) :
    ∀ m ∈ r.members, (user.uid, m) ∉ db.blocked := by
  unfold num_blocked_members at h
  rw [List.length_eq_zero] at h
  intro m hm hblocked
  have hdedup : m ∈ r.members.dedup := List.mem_dedup.mpr hm
  have hcontains : (blockedIds db user).contains m = true := by
    have hmemb : m ∈ blockedIds db user := mem_blockedIds.mpr hblocked
    simpa using hmemb
  have hmem : m ∈ r.members.dedup.filter (fun x => (blockedIds db user).contains x) :=
    List.mem_filter.mpr ⟨hdedup, hcontains⟩
  rw [h] at hmem
  exact absurd hmem (List.not_mem_nil m)

/-- C1: every room in a matchmaker candidate pool (blabhere
`get_waiting_rooms`, mullmine `get_all_chats`) is below the full-room
member count and contains no member blocked by the requester; and since a
block inserts both directions of the symmetrical m2m, a user who has been
blocked by a member of a room is never offered that room. -/
theorem C1_candidate_pools (db : DB) (user : DUser) (topic question : String)
    (r : DRoom) :
    ((r ∈ (Blabhere.get_waiting_rooms db user topic).1 ∨
        r ∈ Mullmine.get_all_chats db user question) →
      r.members.dedup.length < FULL_ROOM_NUM_MEMBERS ∧
      ∀ m ∈ r.members, (user.uid, m) ∉ db.blocked) ∧
    (∀ b ∈ r.members, (user.uid, b) ∈ db.blocked →
      r ∉ (Blabhere.get_waiting_rooms db user topic).1 ∧
      r ∉ Mullmine.get_all_chats db user question) ∧
    (∀ (db₀ : DB) (blocker target : Nat),
      (target, blocker) ∈ (addBlocked db₀ blocker target).blocked) := by
  have hmain : (r ∈ (Blabhere.get_waiting_rooms db user topic).1 ∨
      r ∈ Mullmine.get_all_chats db user question) →
      r.members.dedup.length < FULL_ROOM_NUM_MEMBERS ∧
      ∀ m ∈ r.members, (user.uid, m) ∉ db.blocked := by
    intro hmem
    have hfilter : r.members.dedup.length < FULL_ROOM_NUM_MEMBERS ∧
        num_blocked_members db user r = 0 := by
      rcases hmem with hmem | hmem
      · simp only [Blabhere.get_waiting_rooms] at hmem
        have hpred := (List.mem_filter.mp hmem).2
        simp only [Bool.and_eq_true, decide_eq_true_eq, beq_iff_eq] at hpred
        exact ⟨hpred.1.1, hpred.1.2⟩
      · simp only [Mullmine.get_all_chats] at hmem
        have hpred := (List.mem_filter.mp (mem_sortBy.mp hmem)).2
        simp only [Bool.and_eq_true, decide_eq_true_eq, beq_iff_eq] at hpred
        exact ⟨hpred.1.1, hpred.1.2⟩
    exact ⟨hfilter.1, num_blocked_members_zero hfilter.2⟩
  refine ⟨hmain, ?_, ?_⟩
  · intro b hb hblocked
    constructor
    · intro hmem
      exact (hmain (Or.inl hmem)).2 b hb hblocked
    · intro hmem
      exact (hmain (Or.inr hmem)).2 b hb hblocked
  · intro db₀ blocker target
    exact (addBlocked_mem db₀ blocker target).2

theorem C1_witness :
    wRoom ∈ (Blabhere.get_waiting_rooms wDb wAlice "sports").1 ∧
    wRoom.members.dedup.length < FULL_ROOM_NUM_MEMBERS ∧
    ∀ m ∈ wRoom.members, (wAlice.uid, m) ∉ wDb.blocked :=
  ⟨by decide,
    (C1_candidate_pools wDb wAlice "sports" "q" wRoom).1 (Or.inl (by decide))⟩

/-! ### C3: conversation list ordering -/

theorem convRowLE_read {a b : ConvRow} (h : convRowLE a b) :
    a.read = true → b.read = true := by
  intro ha
  unfold convRowLE convSortKey at h
  rcases (Prod.Lex.le_iff _ _).mp h with hlt | ⟨heq, _⟩
  · have hlt' : a.read < b.read := hlt
    rw [ha] at hlt'
    cases hb : b.read
    · rw [hb] at hlt'
      exact absurd hlt' (by decide)
    · rfl
  · have heq' : a.read = b.read := heq
    exact heq' ▸ ha

/-- C3: `get_user_conversations` returns the user's conversation rows
ordered unread-first, then latest-message timestamp descending with nulls
last, then creation time descending (`convRowLE`); the result is a
permutation of the user's rows; in particular no unread row ever appears
after a read row, regardless of message recency. -/
theorem C3_conversation_order (db : DB) (username : String) (user : DUser)
    (out : List ConvRow)
    (huser : db.userByName username = some user)
    (hout : get_user_conversations db username = Except.ok out) :
    List.Sorted convRowLE out ∧
    out.Perm ((db.convs.filter (fun c => c.participant == user.uid)).map (convRowOf db)) ∧
    out.Pairwise (fun a b => a.read = true → b.read = true) := by
  unfold get_user_conversations at hout
  rw [huser] at hout
  injection hout with hout
  subst hout
  refine ⟨?_, ?_, ?_⟩
  · have hp := sortBy_pairwise (keyLE_total convSortKey) (keyLE_trans convSortKey)
      ((db.convs.filter (fun c => c.participant == user.uid)).map (convRowOf db))
    exact hp.imp (fun h => by simpa [keyLE, convRowLE] using h)
  · exact sortBy_perm _ _
  · have hp := sortBy_pairwise (keyLE_total convSortKey) (keyLE_trans convSortKey)
      ((db.convs.filter (fun c => c.participant == user.uid)).map (convRowOf db))
    exact hp.imp (fun h => convRowLE_read (by simpa [keyLE, convRowLE] using h))

theorem C3_witness :
    List.Sorted convRowLE wOutConvs ∧
    wOutConvs.Perm
      ((wDbConvs.convs.filter (fun c => c.participant == wAlice.uid)).map
        (convRowOf wDbConvs)) ∧
    wOutConvs.Pairwise (fun a b => a.read = true → b.read = true) :=
  C3_conversation_order wDbConvs "alice" wAlice wOutConvs rfl rfl

/-! ### C2: chattiness scoring and partner ranking -/

theorem mem_insertIfAbsent {l : List Nat} {x y : Nat} :
    x ∈ insertIfAbsent l y ↔ x ∈ l ∨ x = y := by
  unfold insertIfAbsent
  by_cases h : y ∈ l
  · rw [if_pos h]
    constructor
    · exact Or.inl
    · rintro (hx | rfl)
      · exact hx
      · exact h
  · rw [if_neg h]
    simp [List.mem_append]

theorem mem_foldl_insertIfAbsent :
    ∀ (ys acc : List Nat) (x : Nat),
      x ∈ ys.foldl insertIfAbsent acc ↔ x ∈ acc ∨ x ∈ ys := by
  intro ys
  induction ys with
  | nil =>
    intro acc x
    simp
  | cons y ys ih =>
    intro acc x
    rw [List.foldl_cons, ih, mem_insertIfAbsent]
    constructor
    · rintro ((hx | rfl) | hx)
      · exact Or.inl hx
      · exact Or.inr (List.mem_cons_self _ _)
      · exact Or.inr (List.mem_cons_of_mem _ hx)
    · rintro (hx | hx)
      · exact Or.inl (Or.inl hx)
      · rcases List.mem_cons.mp hx with rfl | hx
        · exact Or.inl (Or.inr rfl)
        · exact Or.inr hx

theorem mem_partner_fold (user : DUser) :
    ∀ (rs : List DRoom) (acc : List Nat) (x : Nat),
      x ∈ rs.foldl (fun acc r => (other_members_ids user r).foldl insertIfAbsent acc) acc ↔
        x ∈ acc ∨ ∃ r ∈ rs, x ∈ other_members_ids user r := by
  intro rs
  induction rs with
  | nil =>
    intro acc x
    simp
  | cons r rs ih =>
    intro acc x
    rw [List.foldl_cons, ih, mem_foldl_insertIfAbsent]
    constructor
    · rintro ((hx | hx) | ⟨s, hs, hx⟩)
      · exact Or.inl hx
      · exact Or.inr ⟨r, List.mem_cons_self _ _, hx⟩
      · exact Or.inr ⟨s, List.mem_cons_of_mem _ hs, hx⟩
    · rintro (hx | ⟨s, hs, hx⟩)
      · exact Or.inl (Or.inl hx)
      · rcases List.mem_cons.mp hs with rfl | hs
        · exact Or.inl (Or.inr hx)
        · exact Or.inr ⟨s, hs, hx⟩

theorem chattiness_score_eq_spec (db : DB) (user : DUser) (r : DRoom) :
    chattiness_score db user r = chattinessScoreSpec db user r := by
  unfold chattiness_score chattinessScoreSpec
  by_cases hy : num_your_messages db user r.rid = 0
  · have hcond : ¬(0 < num_your_messages db user r.rid ∧
        0 < num_not_your_messages db user r.rid) := by
      rintro ⟨h1, _⟩
      omega
    rw [if_neg hcond, if_pos (Or.inl hy)]
  · by_cases hn : num_not_your_messages db user r.rid = 0
    · have hcond : ¬(0 < num_your_messages db user r.rid ∧
          0 < num_not_your_messages db user r.rid) := by
        rintro ⟨_, h2⟩
        omega
      rw [if_neg hcond, if_pos (Or.inr hn)]
    · rw [if_pos ⟨Nat.pos_of_ne_zero hy, Nat.pos_of_ne_zero hn⟩, if_neg]
      rintro (h | h)
      · exact hy h
      · exact hn h

/-- C2: `get_most_chatted_users` computes exactly the specification's
ranking: the source's guarded chattiness score equals the spec's formula,
the returned partner set refines the spec-side pipeline, the ranked room
list is ordered descending by the score, and the returned set is
precisely the union of the other members of the top-5 ranked rooms. -/
theorem C2_chattiness_ranking (db : DB) (user : DUser) (exclude_room_ids : List Nat) :
    (∀ r : DRoom, chattiness_score db user r = chattinessScoreSpec db user r) ∧
    get_most_chatted_users db user exclude_room_ids =
      mostChattedPartnersSpec db user exclude_room_ids ∧
    (rankedRoomsSpec db user exclude_room_ids).Pairwise
      (fun a b => chattinessScoreSpec db user b ≤ chattinessScoreSpec db user a) ∧
    ∀ x : Nat, x ∈ get_most_chatted_users db user exclude_room_ids ↔
      ∃ r ∈ (rankedRoomsSpec db user exclude_room_ids).take 5,
        x ∈ other_members_ids user r := by
  have hf : chattiness_score db user = chattinessScoreSpec db user :=
    funext (chattiness_score_eq_spec db user)
  have heq : get_most_chatted_users db user exclude_room_ids =
      mostChattedPartnersSpec db user exclude_room_ids := by
    unfold get_most_chatted_users your_chattiest_rooms mostChattedPartnersSpec rankedRoomsSpec
    rw [hf]
  refine ⟨chattiness_score_eq_spec db user, heq, ?_, ?_⟩
  · simp only [rankedRoomsSpec]
    exact (sortBy_pairwise (keyGE_total _) (keyGE_trans _) _).imp
      (fun h => by simpa [keyGE] using h)
  · intro x
    rw [heq]
    unfold mostChattedPartnersSpec
    rw [mem_partner_fold user ((rankedRoomsSpec db user exclude_room_ids).take 5) [] x]
    simp

/-! ### C4: conversation fan-out on a new message -/

theorem convUpdate_cid (message : DMessage) (user : DUser)
    (conversation c : DConversation) :
    (convUpdate message user conversation c).cid = c.cid := by
  unfold convUpdate
  split <;> rfl

theorem convUpdate_participant (message : DMessage) (user : DUser)
    (conversation c : DConversation) :
    (convUpdate message user conversation c).participant = c.participant := by
  unfold convUpdate
  split <;> rfl

theorem convUpdate_room (message : DMessage) (user : DUser)
    (conversation c : DConversation) :
    (convUpdate message user conversation c).room = c.room := by
  unfold convUpdate
  split <;> rfl

theorem rowFor_map_convUpdate (convs : List DConversation) (message : DMessage)
    (user : DUser) (conversation : DConversation) (uid room_id : Nat) :
    rowFor (convs.map (convUpdate message user conversation)) uid room_id =
      (rowFor convs uid room_id).map (convUpdate message user conversation) := by
  unfold rowFor
  rw [List.find?_map]
  have hpred : ((fun c => c.participant == uid && c.room == room_id) ∘
      convUpdate message user conversation) =
      (fun c => c.participant == uid && c.room == room_id) := by
    funext c
    simp [Function.comp, convUpdate_participant, convUpdate_room]
  rw [hpred]

theorem convsMap_cid (message : DMessage) (user : DUser)
    (conversation : DConversation) (convs : List DConversation) :
    (convs.map (convUpdate message user conversation)).map (fun c => c.cid) =
      convs.map (fun c => c.cid) := by
  rw [List.map_map]
  congr 1
  funext c
  exact convUpdate_cid message user conversation c

theorem updateConvLoop_rowFor_ne (room : DRoom) (msg : DMessage) :
    ∀ (us : List DUser) (acc db' : DB) (uid : Nat),
      updateConvLoop room msg us acc = Except.ok db' →
      (acc.convs.map (fun c => c.cid)).Nodup →
      (∀ v ∈ us, v.uid ≠ uid) →
      rowFor db'.convs uid room.rid = rowFor acc.convs uid room.rid := by
  intro us
  induction us with
  | nil =>
    intro acc db' uid h _ _
    unfold updateConvLoop at h
    injection h with h
    rw [← h]
  | cons v rest ih =>
    intro acc db' uid h hnodup hne
    unfold updateConvLoop at h
    by_cases hb : (v.uid, msg.creator) ∈ acc.blocked
    · rw [if_pos hb] at h
      exact ih acc db' uid h hnodup (fun w hw => hne w (List.mem_cons_of_mem _ hw))
    · rw [if_neg hb] at h
      rcases hfind : acc.convs.find?
          (fun c => c.participant == v.uid && c.room == room.rid) with _ | conversation
      · rw [hfind] at h
        cases h
      · rw [hfind] at h
        have hstep : rowFor (acc.convs.map (convUpdate msg v conversation)) uid room.rid =
            rowFor acc.convs uid room.rid := by
          rw [rowFor_map_convUpdate]
          cases hrow : rowFor acc.convs uid room.rid with
          | none => rfl
          | some c =>
            have hc_mem : c ∈ acc.convs := List.mem_of_find?_eq_some hrow
            have hconv_mem : conversation ∈ acc.convs := List.mem_of_find?_eq_some hfind
            have hc_pred := List.find?_some hrow
            have hconv_pred := List.find?_some hfind
            simp only [Bool.and_eq_true, beq_iff_eq] at hc_pred hconv_pred
            have hcid_ne : c.cid ≠ conversation.cid := by
              intro hcid
              have hceq : c = conversation :=
                List.inj_on_of_nodup_map hnodup hc_mem hconv_mem hcid
              have : uid = v.uid := by
                rw [← hc_pred.1, hceq, hconv_pred.1]
              exact hne v (List.mem_cons_self _ _) this.symm
            have hcidb : (c.cid == conversation.cid) = false := by
              simp [hcid_ne]
            simp [convUpdate, hcidb]
        rw [← hstep]
        refine ih _ db' uid h ?_ (fun w hw => hne w (List.mem_cons_of_mem _ hw))
        have hcids := convsMap_cid msg v conversation acc.convs
        show ((acc.convs.map (convUpdate msg v conversation)).map (fun c => c.cid)).Nodup
        rw [hcids]
        exact hnodup

theorem updateConvLoop_updates (room : DRoom) (msg : DMessage) :
    ∀ (us : List DUser) (acc db' : DB) (u : DUser),
      updateConvLoop room msg us acc = Except.ok db' →
      (acc.convs.map (fun c => c.cid)).Nodup →
      us.Pairwise (fun a b => a.uid ≠ b.uid) →
      u ∈ us →
      (u.uid, msg.creator) ∉ acc.blocked →
      ∃ c, rowFor db'.convs u.uid room.rid = some c ∧
        c.latest_message = some msg.mid ∧ c.read = (u.uid == msg.creator) := by
  intro us
  induction us with
  | nil =>
    intro acc db' u _ _ _ hu _
    exact absurd hu (List.not_mem_nil u)
  | cons v rest ih =>
    intro acc db' u h hnodup hpw hu hnb
    unfold updateConvLoop at h
    rcases List.mem_cons.mp hu with rfl | hu
    · rw [if_neg hnb] at h
      rcases hfind : acc.convs.find?
          (fun c => c.participant == u.uid && c.room == room.rid) with _ | conversation
      · rw [hfind] at h
        cases h
      · rw [hfind] at h
        have hrow' : rowFor (acc.convs.map (convUpdate msg u conversation)) u.uid room.rid =
            some { conversation with
              latest_message := some msg.mid, read := u.uid == msg.creator } := by
          rw [rowFor_map_convUpdate]
          rw [show rowFor acc.convs u.uid room.rid = some conversation from hfind]
          simp [convUpdate]
        have hpres := updateConvLoop_rowFor_ne room msg rest _ db' u.uid h
          (by
            have hcids := convsMap_cid msg u conversation acc.convs
            show ((acc.convs.map (convUpdate msg u conversation)).map (fun c => c.cid)).Nodup
            rw [hcids]
            exact hnodup)
          (fun w hw => ((List.pairwise_cons.mp hpw).1 w hw).symm)
        exact ⟨_, by rw [hpres]; exact hrow', rfl, rfl⟩
    · by_cases hb : (v.uid, msg.creator) ∈ acc.blocked
      · rw [if_pos hb] at h
        exact ih acc db' u h hnodup (List.pairwise_cons.mp hpw).2 hu hnb
      · rw [if_neg hb] at h
        rcases hfind : acc.convs.find?
            (fun c => c.participant == v.uid && c.room == room.rid) with _ | conversation
        · rw [hfind] at h
          cases h
        · rw [hfind] at h
          refine ih _ db' u h ?_ (List.pairwise_cons.mp hpw).2 hu hnb
          have hcids := convsMap_cid msg v conversation acc.convs
          show ((acc.convs.map (convUpdate msg v conversation)).map (fun c => c.cid)).Nodup
          rw [hcids]
          exact hnodup

/-- C4: when a message is accepted into a room, every current room member
who has not blocked the creator gets their conversation row pointed at the
new message, with the read flag true exactly when the member is the
creator. -/
theorem C4_new_message_fanout (db : DB) (room : DRoom) (content : String)
    (creator : DUser) (now mid : Nat) (db' : DB) (u : DUser)
    (hok : create_new_message db content room creator now mid = Except.ok db')
    (hcid : (db.convs.map (fun c => c.cid)).Nodup)
    (huid : (memberRecords db room).Pairwise (fun a b => a.uid ≠ b.uid))
    (hu : u ∈ memberRecords db room)
    (hnb : (u.uid, creator.uid) ∉ db.blocked) :
    ∃ c, rowFor db'.convs u.uid room.rid = some c ∧
      c.latest_message = some mid ∧ (c.read = true ↔ u.uid = creator.uid) := by
  simp only [create_new_message, update_conversations_for_new_message] at hok
  obtain ⟨c, hc, hlatest, hread⟩ :=
    updateConvLoop_updates room ⟨mid, creator.uid, room.rid, content, now⟩
      _ _ db' u hok hcid huid hu hnb
  refine ⟨c, hc, hlatest, ?_⟩
  rw [hread]
  exact beq_iff_eq

theorem C4_witness :
    ∃ c, rowFor wDbMsg.convs wBob.uid wRoom.rid = some c ∧
      c.latest_message = some 2 ∧ (c.read = true ↔ wBob.uid = wAlice.uid) :=
  C4_new_message_fanout wDb wRoom "yo" wAlice 9 2 wDbMsg wBob rfl (by decide)
    (by decide) (by decide) (by decide)


/-! ### C5: leaving a room -/

theorem convSetNull_room (d : List Nat) (c : DConversation) :
    (match c.latest_message with
      | some mid => if mid ∈ d then { c with latest_message := none } else c
      | none => c).room = c.room := by
  rcases hl : c.latest_message with _ | mid
  · rfl
  · change (if mid ∈ d then { c with latest_message := none } else c).room = c.room
    split <;> rfl

theorem find?_pred {α : Type} (p : α → Bool) (l : List α) (a : α)
    (h : l.find? p = some a) : p a = true :=
  List.find?_some h

theorem find?_rooms_map_update {rooms : List DRoom} {room_id : Nat} {room : DRoom}
    (h : rooms.find? (fun r => r.rid == room_id) = some room)
    (f : DRoom → DRoom) (hf : ∀ r, (f r).rid = r.rid) :
    (rooms.map f).find? (fun r => r.rid == room_id) = some (f room) := by
  rw [List.find?_map]
  have hpred : ((fun r => r.rid == room_id) ∘ f) = (fun r => r.rid == room_id) := by
    funext r
    simp [Function.comp, hf]
  rw [hpred, h]
  rfl

theorem convs_leave_filter {convs : List DConversation} {user_uid room_id : Nat} :
    ∀ c ∈ convs.filter (fun c => !(c.participant == user_uid && c.room == room_id)),
      ¬(c.participant = user_uid ∧ c.room = room_id) := by
  intro c hc
  rintro ⟨h1, h2⟩
  have hpred := (List.mem_filter.mp hc).2
  simp [h1, h2] at hpred

theorem deleteRoomCascade_rooms (db : DB) (room_id : Nat) :
    ∀ r ∈ (deleteRoomCascade db room_id).rooms, r.rid ≠ room_id := by
  intro r hr
  simp only [deleteRoomCascade] at hr
  have hpred := (List.mem_filter.mp hr).2
  simpa using hpred

theorem deleteRoomCascade_messages (db : DB) (room_id : Nat) :
    ∀ m ∈ (deleteRoomCascade db room_id).messages, m.room ≠ room_id := by
  intro m hm
  simp only [deleteRoomCascade] at hm
  have hpred := (List.mem_filter.mp hm).2
  simpa using hpred

theorem deleteRoomCascade_convs_room (db : DB) (room_id : Nat) :
    ∀ c ∈ (deleteRoomCascade db room_id).convs, c.room ≠ room_id := by
  intro c hc
  simp only [deleteRoomCascade] at hc
  obtain ⟨c₀, hc₀, rfl⟩ := List.mem_map.mp hc
  have hr : c₀.room ≠ room_id := by
    have hpred := (List.mem_filter.mp hc₀).2
    simpa using hpred
  rw [convSetNull_room]
  exact hr

theorem deleteRoomCascade_find?_none (db : DB) (room_id : Nat) :
    (deleteRoomCascade db room_id).rooms.find? (fun r => r.rid == room_id) = none := by
  rw [List.find?_eq_none]
  intro r hr
  simpa using deleteRoomCascade_rooms db room_id r hr

/-- C5: leaving a room deletes the member's conversation row for it and
removes the membership; in the mullmine variant a room left empty is
deleted together with its messages (so re-fetching the deleted id finds
nothing), while the blabhere variant retains the abandoned room; in both
variants re-fetching the room id never yields a stale membership. -/
theorem C5_leave_room (db : DB) (user : DUser) (room_id : Nat) (room : DRoom)
    (db1 db2 : DB)
    (hroom : db.roomById room_id = some room)
    (hm : user.uid ∈ room.members)
    (h1 : Mullmine.leave_room db user room_id = Except.ok db1)
    (h2 : Blabhere.leave_room db user room_id = Except.ok db2) :
    ((∀ c ∈ db1.convs, ¬(c.participant = user.uid ∧ c.room = room_id)) ∧
     (∀ r ∈ db1.rooms, r.rid = room_id → user.uid ∉ r.members) ∧
     ((room.members.filter (fun m => m != user.uid)).length = 0 →
        get_room db1 room_id = none ∧ ∀ m ∈ db1.messages, m.room ≠ room_id) ∧
     ((room.members.filter (fun m => m != user.uid)).length ≠ 0 →
        get_room db1 room_id =
          some { room with members := room.members.filter (fun m => m != user.uid) })) ∧
    ((∀ c ∈ db2.convs, ¬(c.participant = user.uid ∧ c.room = room_id)) ∧
     (∀ r ∈ db2.rooms, r.rid = room_id → user.uid ∉ r.members) ∧
     get_room db2 room_id =
       some { room with members := room.members.filter (fun m => m != user.uid) }) := by
  have hfind : db.rooms.find? (fun r => r.rid == room_id) = some room := hroom
  have hrid : (room.rid == room_id) = true :=
    find?_pred (fun r => r.rid == room_id) db.rooms room hfind
  have hfl : ∀ l : List Nat, user.uid ∉ l.filter (fun m => m != user.uid) := by
    intro l hmem
    have hpred := (List.mem_filter.mp hmem).2
    simp at hpred
  constructor
  · -- mullmine variant
    simp only [Mullmine.leave_room, hroom] at h1
    rw [if_pos hm] at h1
    by_cases hlen : (room.members.filter (fun m => m != user.uid)).length = 0
    · have hcond : ((room.members.filter (fun m => m != user.uid)).length == 0) = true := by
        simp [hlen]
      rw [if_pos hcond] at h1
      injection h1 with h1
      subst h1
      refine ⟨?_, ?_, fun _ => ⟨?_, ?_⟩, fun hne => absurd hlen hne⟩
      · intro c hc
        rintro ⟨_, h2c⟩
        exact deleteRoomCascade_convs_room _ room_id c hc h2c
      · intro r hr hrid2
        exact absurd hrid2 (deleteRoomCascade_rooms _ room_id r hr)
      · exact deleteRoomCascade_find?_none _ room_id
      · exact deleteRoomCascade_messages _ room_id
    · have hcond : ((room.members.filter (fun m => m != user.uid)).length == 0) = false := by
        simpa using hlen
      rw [hcond] at h1
      simp only [Bool.false_eq_true, if_false] at h1
      injection h1 with h1
      subst h1
      refine ⟨convs_leave_filter, ?_, fun h0 => absurd h0 hlen, fun _ => ?_⟩
      · intro r hr hrid2
        obtain ⟨r₀, _, rfl⟩ := List.mem_map.mp hr
        by_cases hb : (r₀.rid == room_id) = true
        · rw [if_pos hb]
          exact hfl room.members
        · rw [if_neg hb] at hrid2 ⊢
          intro _
          exact hb (by simp [hrid2])
      · have hmap := find?_rooms_map_update hfind
          (fun r => if r.rid == room_id then
            { r with members := room.members.filter (fun m => m != user.uid) } else r)
          (by
            intro r
            dsimp only
            split <;> rfl)
        dsimp only at hmap
        rw [if_pos hrid] at hmap
        exact hmap
  · -- blabhere variant
    simp only [Blabhere.leave_room, hroom] at h2
    rw [if_pos hm] at h2
    injection h2 with h2
    subst h2
    refine ⟨convs_leave_filter, ?_, ?_⟩
    · intro r hr hrid2
      obtain ⟨r₀, _, rfl⟩ := List.mem_map.mp hr
      by_cases hb : (r₀.rid == room_id) = true
      · rw [if_pos hb]
        exact hfl r₀.members
      · rw [if_neg hb] at hrid2 ⊢
        intro _
        exact hb (by simp [hrid2])
    · have hmap := find?_rooms_map_update hfind
        (fun r => if r.rid == room_id then
          { r with members := r.members.filter (fun m => m != user.uid) } else r)
        (by
          intro r
          dsimp only
          split <;> rfl)
      dsimp only at hmap
      rw [if_pos hrid] at hmap
      exact hmap

theorem C5_witness :
    ((∀ c ∈ wDbSoloM.convs, ¬(c.participant = wAlice.uid ∧ c.room = 8)) ∧
     (∀ r ∈ wDbSoloM.rooms, r.rid = 8 → wAlice.uid ∉ r.members) ∧
     ((wRoomSolo.members.filter (fun m => m != wAlice.uid)).length = 0 →
        get_room wDbSoloM 8 = none ∧ ∀ m ∈ wDbSoloM.messages, m.room ≠ 8) ∧
     ((wRoomSolo.members.filter (fun m => m != wAlice.uid)).length ≠ 0 →
        get_room wDbSoloM 8 =
          some { wRoomSolo with
            members := wRoomSolo.members.filter (fun m => m != wAlice.uid) })) ∧
    ((∀ c ∈ wDbSoloB.convs, ¬(c.participant = wAlice.uid ∧ c.room = 8)) ∧
     (∀ r ∈ wDbSoloB.rooms, r.rid = 8 → wAlice.uid ∉ r.members) ∧
     get_room wDbSoloB 8 =
       some { wRoomSolo with
         members := wRoomSolo.members.filter (fun m => m != wAlice.uid) }) :=
  C5_leave_room wDbSolo wAlice 8 wRoomSolo wDbSoloM wDbSoloB rfl (by decide) rfl rfl
